import Mathlib

/-!
Shallow embedding of the extraction-and-pagination engine of the
brand-monitoring scraper (src/scraper.py).

The DOM handed to the extractors by BeautifulSoup is modelled as a forest of
`Node`s; the CSS selectors used by the code are modelled as predicates on
nodes, and `soup.select` as a pre-order traversal filtered by the predicate.
Python strings are modelled as `List Char` (wrapped in `String` at the
record level); the regular expressions the code uses (`DATE_RE`, the
`strptime` formats) are implemented as explicit scanners over `List Char`.
The three pagination strategies are modelled as pure fuel-bounded loops over
an abstract browser driver: a function from an abstract state index to the
rendered DOM, button labels, or measured page height.
-/

namespace Scraper

/-- Python `\s` over ASCII: space, tab, newline, carriage return,
vertical tab, form feed. -/
def isSpaceChar (c : Char) : Bool :=
  c == ' ' || c == '\t' || c == '\n' || c == '\r' || c == '\x0b' || c == '\x0c'

def isDigitChar (c : Char) : Bool :=
  '0' ≤ c && c ≤ '9'

/-- Python regex `\w` over ASCII. -/
def isWordChar (c : Char) : Bool :=
  isDigitChar c || ('a' ≤ c && c ≤ 'z') || ('A' ≤ c && c ≤ 'Z') || c == '_'

/-- ASCII lowercasing, as applied by case-insensitive matching in the code. -/
def lowerChar (c : Char) : Char :=
  if 'A' ≤ c && c ≤ 'Z' then Char.ofNat (c.toNat + 32) else c

def lowerList (cs : List Char) : List Char := cs.map lowerChar

/-- Split on whitespace runs, dropping empty pieces (Python `s.split()`). -/
def wordsAux (cur : List Char) : List Char → List (List Char)
  | [] => if cur.isEmpty then [] else [cur.reverse]
  | c :: rest =>
    if isSpaceChar c then
      if cur.isEmpty then wordsAux [] rest else cur.reverse :: wordsAux [] rest
    else
      wordsAux (c :: cur) rest

def pyWords (cs : List Char) : List (List Char) := wordsAux [] cs

/-- `_clean`: `re.sub(r"\s+", " ", s).strip()`, i.e. collapse each
whitespace run to one space and trim the ends. -/
def cleanList (cs : List Char) : List Char :=
  List.intercalate [' '] (pyWords cs)

def clean (s : String) : String := String.mk (cleanList s.toList)

/-- Python `str.strip()` (whitespace at both ends). -/
def stripChars (cs : List Char) : List Char :=
  ((cs.dropWhile isSpaceChar).reverse.dropWhile isSpaceChar).reverse

/-- `pre` occurs at the head of `cs`. -/
def listHasPre : List Char → List Char → Bool
  | [], _ => true
  | _ :: _, [] => false
  | a :: as, b :: bs => a == b && listHasPre as bs

/-- `sub` occurs somewhere inside `cs` (Python `sub in cs`,
CSS `[class*='sub']`). -/
def listHasSub (sub : List Char) : List Char → Bool
  | [] => listHasPre sub []
  | c :: rest => listHasPre sub (c :: rest) || listHasSub sub rest

/-- Python `cs.replace(pat, "")` for a non-empty pattern `p0 :: prest`:
delete each leftmost non-overlapping occurrence. The `fuel` argument (the
input length at the top call) only makes the recursion structural; each
step consumes at least one character, so it never runs out. -/
def removeAllFuel (p0 : Char) (prest : List Char) : Nat → List Char → List Char
  | 0, cs => cs
  | _ + 1, [] => []
  | fuel + 1, c :: rest =>
    if listHasPre (p0 :: prest) (c :: rest) then
      removeAllFuel p0 prest fuel (rest.drop prest.length)
    else
      c :: removeAllFuel p0 prest fuel rest

/-- Python `cs.replace(pat, "")` (for the empty pattern the code never uses
it, so the identity suffices there). -/
def removeAll (pat : List Char) (cs : List Char) : List Char :=
  match pat with
  | [] => cs
  | p :: pr => removeAllFuel p pr cs.length cs

/-! ## DOM model

BeautifulSoup's parsed document is a forest of element and text nodes; the
extractors only consult an element's tag name, its `class` attribute string
and its descendants, so that is what the model records. -/

inductive Node where
  | elem (tag : String) (classAttr : String) (children : List Node)
  | text (s : String)
deriving Repr

def Node.tagOf : Node → String
  | .elem t _ _ => t
  | .text _ => ""

def Node.classOf : Node → String
  | .elem _ a _ => a
  | .text _ => ""

mutual

/-- The navigable strings below a node, in document order
(`el.get_text` collects these). -/
def textStrings : Node → List String
  | .text s => [s]
  | .elem _ _ cs => textStringsList cs

def textStringsList : List Node → List String
  | [] => []
  | n :: ns => textStrings n ++ textStringsList ns

end

/-- `el.get_text(" ", strip=True)`: strip each string, drop empties,
join with a single space. -/
def getTextN (n : Node) : List Char :=
  List.intercalate [' ']
    (((textStrings n).map (fun s => stripChars s.toList)).filter (fun w => !w.isEmpty))

/-- `_safe_text(el)`: `_clean(el.get_text(" ", strip=True))`; on a missing
element (`select_one` returned `None`) both fallbacks raise and the helper
returns the empty string. -/
def safeText (n : Node) : String := String.mk (cleanList (getTextN n))

def safeTextOpt : Option Node → String
  | none => ""
  | some n => safeText n

mutual

/-- All elements of a node in pre-order (the node itself first), i.e. the
document order in which `soup.select` yields matches. -/
def allElems : Node → List Node
  | .text _ => []
  | .elem t a cs => .elem t a cs :: allElemsList cs

def allElemsList : List Node → List Node
  | [] => []
  | n :: ns => allElems n ++ allElemsList ns

end

/-- The element descendants of a node, excluding the node itself
(the search space of `c.select` / `c.select_one`). -/
def descElems : Node → List Node
  | .text _ => []
  | .elem _ _ cs => allElemsList cs

/-- `c.select_one(sel)`: first descendant element matching the predicate,
in document order. -/
def selectOne (p : Node → Bool) (n : Node) : Option Node :=
  (descElems n).find? p

/-- CSS `.cls` on the `class` attribute: `cls` is one of the
whitespace-separated class tokens. -/
def hasClass (cls : String) (n : Node) : Bool :=
  (pyWords n.classOf.toList).contains cls.toList

/-- CSS `[class*='sub']`: the raw `class` attribute string contains `sub`. -/
def classContains (sub : String) (n : Node) : Bool :=
  listHasSub sub.toList n.classOf.toList

/-! ## DATE_RE: `\b(20\d{2})-(\d{2})-(\d{2})\b` -/

/-- `\b` to the left of the match: start of string or a non-word char. -/
def boundaryBefore : Option Char → Bool
  | none => true
  | some p => !isWordChar p

/-- `\b` to the right of the match: end of string or a non-word char. -/
def boundaryAfter : List Char → Bool
  | [] => true
  | r :: _ => !isWordChar r

/-- Try `DATE_RE` anchored at the current position (`prev` is the character
just before it). On success returns the ten matched characters and the
remainder of the string. -/
def isoHere (prev : Option Char) : List Char → Option (List Char × List Char)
  | '2' :: '0' :: a :: b :: '-' :: c :: d :: '-' :: e :: f :: rest =>
    if isDigitChar a && isDigitChar b && isDigitChar c && isDigitChar d &&
        isDigitChar e && isDigitChar f &&
        boundaryBefore prev && boundaryAfter rest then
      some (['2', '0', a, b, '-', c, d, '-', e, f], rest)
    else
      none
  | _ => none

/-- `DATE_RE.search`: leftmost match, scanning positions left to right. -/
def findIsoAux (prev : Option Char) : List Char → Option (List Char × List Char)
  | [] => none
  | c :: rest =>
    match isoHere prev (c :: rest) with
    | some m => some m
    | none => findIsoAux (some c) rest

def findIso (cs : List Char) : Option (List Char × List Char) :=
  findIsoAux none cs

/-- `DATE_RE.sub("", text)`: delete every non-overlapping leftmost match.
After a match the scan resumes right after it, with the match's last
character (a digit) as the character before the next position. The `fuel`
argument (the input length at the top call) only makes the recursion
structural; each step consumes at least one character. -/
def isoSubFuel (prev : Option Char) : Nat → List Char → List Char
  | 0, cs => cs
  | _ + 1, [] => []
  | fuel + 1, c :: rest =>
    match isoHere prev (c :: rest) with
    | some (m, rest') => isoSubFuel (some (m.getLastD '0')) fuel rest'
    | none => c :: isoSubFuel (some c) fuel rest

def isoSub (cs : List Char) : List Char := isoSubFuel none cs.length cs

/-! ## Records and dedup -/

structure ProductRec where
  name : String
  description : String
  price : Option String
  page : Nat
  source_url : String
deriving Repr, DecidableEq

structure ReviewRec where
  date : String
  text : String
  source_url : String
deriving Repr, DecidableEq

structure TestimonialRec where
  author : Option String
  text : String
  source_url : String
deriving Repr, DecidableEq

def productKey (r : ProductRec) : String × Option String := (r.name, r.price)

def reviewKey (r : ReviewRec) : String × String := (r.date, r.text.take 80)

def testimonialKey (r : TestimonialRec) : String × String :=
  (r.author.getD "", r.text.take 80)

/-- The shared dedup loop: walk the items in order, keep an item iff its key
has not been seen, remembering seen keys. -/
def dedupByAux {α κ : Type} [DecidableEq κ] (key : α → κ) (seen : List κ) :
    List α → List α
  | [] => []
  | it :: rest =>
    if key it ∈ seen then dedupByAux key seen rest
    else it :: dedupByAux key (key it :: seen) rest

def dedupBy {α κ : Type} [DecidableEq κ] (key : α → κ) (items : List α) :
    List α :=
  dedupByAux key [] items

/-! ## extract_products -/

/-- `soup.select("div.card, article, div[class*='product']")`. -/
def productCardSel (n : Node) : Bool :=
  (n.tagOf == "div" && hasClass "card" n) || n.tagOf == "article" ||
    (n.tagOf == "div" && classContains "product" n)

/-- `c.select_one("h2, h3, h2 a, h3 a, a")`: `h2 a` and `h3 a` only match
elements that `a` already matches, so the group matches tags h2, h3, a. -/
def productNameSel (n : Node) : Bool :=
  n.tagOf == "h2" || n.tagOf == "h3" || n.tagOf == "a"

/-- `c.select_one(".price, [class*='price'])`. -/
def priceSel (n : Node) : Bool :=
  hasClass "price" n || classContains "price" n

def isP (n : Node) : Bool := n.tagOf == "p"

/-- One product card's candidate record (`None` when the card is skipped
because no name was recovered). -/
def productOfCard (page : Nat) (url : String) (c : Node) : Option ProductRec :=
  let name := safeTextOpt (selectOne productNameSel c)
  if name = "" then none
  else
    let desc := safeTextOpt (selectOne isP c)
    let price := safeTextOpt (selectOne priceSel c)
    some { name := name, description := desc,
           price := if price = "" then none else some price,
           page := page, source_url := url }

def extract_products (doc : List Node) (page : Nat) (url : String) :
    List ProductRec :=
  let cards := (allElemsList doc).filter productCardSel
  let items := cards.filterMap (productOfCard page url)
  dedupBy productKey items

/-! ## extract_reviews -/

/-- `soup.select("div.review, div[class*='review'], div.card, article, li")`. -/
def reviewCardSel (n : Node) : Bool :=
  (n.tagOf == "div" && hasClass "review" n) ||
    (n.tagOf == "div" && classContains "review" n) ||
    (n.tagOf == "div" && hasClass "card" n) ||
    n.tagOf == "article" || n.tagOf == "li"

/-- The per-paragraph test of `extract_reviews`:
`if t and not DATE_RE.search(t)`. -/
def qualifiesReviewPara (t : String) : Bool :=
  t ≠ "" && (findIso t.toList).isNone

/-- The paragraph-selection loop of `extract_reviews`: keep the longest
non-empty paragraph text that does not itself contain the date pattern
(strictly longer wins, so the first of maximal length is kept). -/
def bestReviewText (ts : List String) : String :=
  ts.foldl
    (fun best t =>
      if qualifiesReviewPara t && t.length > best.length then t else best)
    ""

/-- One review card's candidate record (`None` when skipped: no date
pattern in the card text, or recovered text shorter than 5). -/
def reviewOfCard (url : String) (c : Node) : Option ReviewRec :=
  let text_all := safeText c
  match findIso text_all.toList with
  | none => none
  | some (m, _) =>
    let iso_date := String.mk m
    let ps := (descElems c).filter isP
    let best := bestReviewText (ps.map safeText)
    let best := if best = "" then String.mk (cleanList (isoSub text_all.toList)) else best
    if best.length < 5 then none
    else some { date := iso_date, text := best, source_url := url }

def extract_reviews (doc : List Node) (url : String) : List ReviewRec :=
  let cards := (allElemsList doc).filter reviewCardSel
  let items := cards.filterMap (reviewOfCard url)
  dedupBy reviewKey items

/-! ## extract_testimonials -/

/-- `soup.select("div.testimonial, div[class*='testimonial'], blockquote,
div.card, article")`. -/
def testimonialBlockSel (n : Node) : Bool :=
  (n.tagOf == "div" && hasClass "testimonial" n) ||
    (n.tagOf == "div" && classContains "testimonial" n) ||
    n.tagOf == "blockquote" ||
    (n.tagOf == "div" && hasClass "card" n) || n.tagOf == "article"

/-- `b.select_one("[class*='author'], strong, h3, h4")`. -/
def authorSel (n : Node) : Bool :=
  classContains "author" n || n.tagOf == "strong" || n.tagOf == "h3" ||
    n.tagOf == "h4"

/-- `b.select_one("p") if b.name != "blockquote" else b`, fed to
`_safe_text` (a missing paragraph yields the empty string). -/
def testimonialText (b : Node) : String :=
  if b.tagOf ≠ "blockquote" then safeTextOpt (selectOne isP b) else safeText b

/-- One testimonial block's candidate record (`None` when the recovered
text is shorter than 10). -/
def testimonialOfBlock (url : String) (b : Node) : Option TestimonialRec :=
  let author := safeTextOpt (selectOne authorSel b)
  let text := testimonialText b
  if text.length < 10 then none
  else some { author := if author = "" then none else some author,
              text := text, source_url := url }

def extract_testimonials (doc : List Node) (url : String) :
    List TestimonialRec :=
  let blocks := (allElemsList doc).filter testimonialBlockSel
  let items := blocks.filterMap (testimonialOfBlock url)
  dedupBy testimonialKey items

/-! ## `_parse_date_to_iso`

`datetime.strptime(s2, fmt)` for the two formats `"%b %d %Y"` and
`"%B %d %Y"` is modelled by an explicit scanner: CPython compiles the
format to a case-insensitive anchored regex (whitespace in the format
becomes `\s+`, `%d` becomes `(3[01]|[12]\d|0[1-9]|[1-9])`, `%Y` becomes
`(\d\d\d\d)`), requires the whole string to be consumed, and then builds a
`datetime`, which validates the day against the month and year. -/

def monthAbbrs : List (List Char) :=
  ["jan", "feb", "mar", "apr", "may", "jun", "jul", "aug", "sep", "oct",
   "nov", "dec"].map String.toList

def monthFulls : List (List Char) :=
  ["january", "february", "march", "april", "may", "june", "july", "august",
   "september", "october", "november", "december"].map String.toList

def findMonthAux (i : Nat) : List (List Char) → List Char →
    Option (Nat × List Char)
  | [], _ => none
  | nm :: rest, cs =>
    if listHasPre nm cs then some (i, cs.drop nm.length)
    else findMonthAux (i + 1) rest cs

/-- Match one of the month names (already lowercased) at the head of the
string; none of the names is a prefix of another, so first-wins equals the
regex alternation. Returns the month number and the rest. -/
def findMonth (names : List (List Char)) (cs : List Char) :
    Option (Nat × List Char) :=
  findMonthAux 1 names cs

/-- `\s+`: at least one whitespace character, consumed greedily. -/
def ws1 : List Char → Option (List Char)
  | [] => none
  | c :: rest => if isSpaceChar c then some (rest.dropWhile isSpaceChar) else none

/-- The alternatives of `%d` = `(3[01]|[12]\d|0[1-9]|[1-9])`, in regex
order, each with the remaining input. -/
def dayCandidates (cs : List Char) : List (Nat × List Char) :=
  (match cs with
   | '3' :: c :: rest =>
     if c == '0' || c == '1' then [(30 + (c.toNat - 48), rest)] else []
   | _ => []) ++
  (match cs with
   | a :: b :: rest =>
     if (a == '1' || a == '2') && isDigitChar b then
       [(10 * (a.toNat - 48) + (b.toNat - 48), rest)]
     else []
   | _ => []) ++
  (match cs with
   | '0' :: b :: rest =>
     if '1' ≤ b && b ≤ '9' then [(b.toNat - 48, rest)] else []
   | _ => []) ++
  (match cs with
   | a :: rest => if '1' ≤ a && a ≤ '9' then [(a.toNat - 48, rest)] else []
   | _ => [])

/-- `%Y` = exactly four digits, which must end the string (strptime rejects
any unconsumed tail). -/
def yearAtEnd : List Char → Option Nat
  | [a, b, c, d] =>
    if isDigitChar a && isDigitChar b && isDigitChar c && isDigitChar d then
      some (((a.toNat - 48) * 10 + (b.toNat - 48)) * 100 +
        (c.toNat - 48) * 10 + (d.toNat - 48))
    else none
  | _ => none

def isLeap (y : Nat) : Bool :=
  y % 4 == 0 && (y % 100 != 0 || y % 400 == 0)

def daysInMonth (y m : Nat) : Nat :=
  if m = 2 then (if isLeap y then 29 else 28)
  else if m = 4 || m = 6 || m = 9 || m = 11 then 30
  else 31

/-- `datetime.strptime(cs, "%b %d %Y")` (with `names = monthAbbrs`) or
`"%B %d %Y"` (with `names = monthFulls`), returning `(year, month, day)`.
`datetime(year, month, day)` raising `ValueError` (day out of range for the
month, or year 0) makes the format fail. -/
def strptimeMDY (names : List (List Char)) (cs : List Char) :
    Option (Nat × Nat × Nat) :=
  let lcs := lowerList cs
  match findMonth names lcs with
  | none => none
  | some (mon, r1) =>
    match ws1 r1 with
    | none => none
    | some r2 =>
      (dayCandidates r2).findSome? (fun dc =>
        match ws1 dc.2 with
        | none => none
        | some r4 =>
          match yearAtEnd r4 with
          | none => none
          | some y =>
            if 1 ≤ y && dc.1 ≤ daysInMonth y mon then some (y, mon, dc.1)
            else none)

def padZero (w : Nat) (s : String) : String :=
  String.mk (List.replicate (w - s.length) '0' ++ s.toList)

/-- `date(y, m, d).isoformat()`. -/
def isoFromYMD (y m d : Nat) : String :=
  padZero 4 (toString y) ++ "-" ++ padZero 2 (toString m) ++ "-" ++
    padZero 2 (toString d)

/-- `_parse_date_to_iso`. -/
def parse_date_to_iso (s : String) : Option String :=
  let cs := cleanList s.toList
  match findIso cs with
  | some (m, _) => some (String.mk m)
  | none =>
    let s2 := stripChars (removeAll "on".toList (removeAll "Reviewed on".toList cs))
    match strptimeMDY monthAbbrs s2 with
    | some (y, mo, d) => some (isoFromYMD y mo d)
    | none =>
      match strptimeMDY monthFulls s2 with
      | some (y, mo, d) => some (isoFromYMD y mo d)
      | none => none

/-! ## Pagination strategies

The Selenium driver is abstracted to pure functions. For the numbered-page
strategy the driver is `listing : Nat → List Node`, the DOM rendered for
`?page=N`. For the click-to-reveal strategy the browser state after `s`
clicks is index `s`: `dom s` is the rendered DOM and `labels s` the visible
enabled button/link labels. For the scroll strategy `heights i` is the
`i`-th height measurement (measurement 0 is the read before the loop). -/

def productsUrl (page : Nat) : String :=
  "https://web-scraping.dev/products?page=" ++ toString page

/-- The `for page in range(1, max_pages + 1)` loop of `scrape_products`,
returning the accumulated records and the number of `driver.get` calls. -/
def scrape_productsAux (listing : Nat → List Node) :
    Nat → Nat → List ProductRec × Nat
  | 0, _ => ([], 0)
  | fuel + 1, page =>
    let items := extract_products (listing page) page (productsUrl page)
    if items.isEmpty then ([], 1)
    else
      let r := scrape_productsAux listing fuel (page + 1)
      (items ++ r.1, r.2 + 1)

def scrape_products (listing : Nat → List Node) (max_pages : Nat := 50) :
    List ProductRec × Nat :=
  scrape_productsAux listing max_pages 1

/-- `find_clickable_by_text(driver, text)`: first visible enabled button or
link whose text, stripped and lowercased, equals the stripped lowercased
target. The abstract driver exposes the labels of those elements. -/
def find_clickable_by_text (labels : List String) (text : String) :
    Option String :=
  let t := lowerList (stripChars text.toList)
  labels.find? (fun l => lowerList (stripChars l.toList) == t)

def reviewsUrl : String := "https://web-scraping.dev/reviews"

/-- The click loop of `scrape_reviews` over the abstract driver: at state
`s`, if no "Load More" control is visible, stop; otherwise click (state
becomes `s + 1`) and re-extract. The bounded wait succeeds as soon as the
count exceeds `prev` or the control is gone — in the pure model the state
does not change while waiting, so on a timeout the count did not grow and
the loop breaks; on success with a count not above `prev` the post-wait
guard breaks. Either way the round continues only when `cur > prev`.
Returns the final state and the number of clicks performed. -/
def scrape_reviewsAux (dom : Nat → List Node) (labels : Nat → List String) :
    Nat → Nat → Nat → Nat × Nat
  | 0, s, _ => (s, 0)
  | fuel + 1, s, prev =>
    match find_clickable_by_text (labels s) "Load More" with
    | none => (s, 0)
    | some _ =>
      let cur := (extract_reviews (dom (s + 1)) reviewsUrl).length
      if cur ≤ prev then (s + 1, 1)
      else
        let r := scrape_reviewsAux dom labels fuel (s + 1) cur
        (r.1, r.2 + 1)

/-- `scrape_reviews`: returns the records extracted from the final page
state together with the number of clicks performed. -/
def scrape_reviews (dom : Nat → List Node) (labels : Nat → List String)
    (max_clicks : Nat := 250) : List ReviewRec × Nat :=
  let prev := (extract_reviews (dom 0) reviewsUrl).length
  let r := scrape_reviewsAux dom labels max_clicks 0 prev
  (extract_reviews (dom r.1) reviewsUrl, r.2)

/-- The scroll loop of `scrape_testimonials`: round `i` measures
`heights i`; an unchanged reading bumps the stable counter and the loop
stops once it reaches 3; a changed reading resets the counter. Returns the
number of scroll rounds performed. -/
def scrollRoundsAux (heights : Nat → Nat) :
    Nat → Nat → Nat → Nat → Nat
  | 0, _, _, _ => 0
  | fuel + 1, i, last, stable =>
    let nh := heights i
    if nh = last then
      if stable + 1 ≥ 3 then 1
      else 1 + scrollRoundsAux heights fuel (i + 1) last (stable + 1)
    else 1 + scrollRoundsAux heights fuel (i + 1) nh 0

/-- Number of scroll rounds `scrape_testimonials` performs: the initial
height read is `heights 0`, round `i ≥ 1` reads `heights i`. -/
def scrollRounds (heights : Nat → Nat) (max_scrolls : Nat := 200) : Nat :=
  scrollRoundsAux heights max_scrolls 1 (heights 0) 0

/-! ## Generic lemmas about the dedup loop and document append -/

theorem mem_of_mem_dedupByAux {α κ : Type} [DecidableEq κ] (key : α → κ)
    (seen : List κ) (l : List α) {x : α} :
    x ∈ dedupByAux key seen l → x ∈ l := by
  induction l generalizing seen with
  | nil => intro h; cases h
  | cons it rest ih =>
    intro h
    unfold dedupByAux at h
    split at h
    · exact List.mem_cons_of_mem _ (ih _ h)
    · rcases List.mem_cons.mp h with h1 | h2
      · exact h1 ▸ List.mem_cons_self _ _
      · exact List.mem_cons_of_mem _ (ih _ h2)

theorem dedupByAux_keys_nodup {α κ : Type} [DecidableEq κ] (key : α → κ)
    (seen : List κ) (l : List α) :
    ((dedupByAux key seen l).map key).Nodup ∧
      ∀ k ∈ (dedupByAux key seen l).map key, k ∉ seen := by
  induction l generalizing seen with
  | nil => exact ⟨List.nodup_nil, by simp [dedupByAux]⟩
  | cons it rest ih =>
    unfold dedupByAux
    split
    · exact ih seen
    · rename_i hnot
      obtain ⟨ihnodup, ihseen⟩ := ih (key it :: seen)
      refine ⟨List.nodup_cons.mpr ⟨?_, ihnodup⟩, ?_⟩
      · intro hmem
        exact (ihseen _ hmem) (List.mem_cons_self _ _)
      · intro k hk
        rcases List.mem_cons.mp hk with h1 | h2
        · exact h1 ▸ hnot
        · intro hks
          exact (ihseen _ h2) (List.mem_cons_of_mem _ hks)

theorem dedupByAux_covers {α κ : Type} [DecidableEq κ] (key : α → κ)
    (seen : List κ) (l : List α) {x : α} (hx : x ∈ l) :
    key x ∈ seen ∨ ∃ y ∈ dedupByAux key seen l, key y = key x := by
  induction l generalizing seen with
  | nil => cases hx
  | cons it rest ih =>
    unfold dedupByAux
    rcases List.mem_cons.mp hx with heq | hxr
    · subst heq
      split
      · rename_i hin
        exact Or.inl hin
      · exact Or.inr ⟨x, List.mem_cons_self _ _, rfl⟩
    · split
      · exact ih seen hxr
      · rcases ih (key it :: seen) hxr with hin | ⟨y, hy, hky⟩
        · rcases List.mem_cons.mp hin with heq | hin2
          · exact Or.inr ⟨it, List.mem_cons_self _ _, heq.symm⟩
          · exact Or.inl hin2
        · exact Or.inr ⟨y, List.mem_cons_of_mem _ hy, hky⟩

theorem mem_dedupBy_of_key {α κ : Type} [DecidableEq κ] (key : α → κ)
    (l : List α) {x : α} (hx : x ∈ l) :
    ∃ y ∈ dedupBy key l, key y = key x := by
  rcases dedupByAux_covers key [] l hx with hin | h
  · cases hin
  · exact h

theorem allElemsList_append (a b : List Node) :
    allElemsList (a ++ b) = allElemsList a ++ allElemsList b := by
  induction a with
  | nil => simp [allElemsList]
  | cons n ns ih => simp [allElemsList, ih]

/-! ## Concrete example documents -/

/-- Two review texts sharing their first 80 characters and differing only
beyond them. -/
def longTailA : String := String.mk (List.replicate 80 'x') ++ " tail A"

def longTailB : String := String.mk (List.replicate 80 'x') ++ " other tail B"

def revCardTailA : Node :=
  .elem "div" "review"
    [.elem "span" "" [.text "2023-05-18"], .elem "p" "" [.text longTailA]]

def revCardTailB : Node :=
  .elem "div" "review"
    [.elem "span" "" [.text "2023-05-18"], .elem "p" "" [.text longTailB]]

end Scraper

namespace Scraper

set_option maxRecDepth 40000

/-- C1: in each of the three extractors no two returned records share the
same dedup key — `(name, price)` for products, `(date, first 80 chars of
text)` for reviews, `(author-or-empty, first 80 chars of text)` for
testimonials — and two review containers whose records differ only beyond
the 80-character text prefix collapse to the single record recovered from
the first container in document order. -/
theorem claim_C1 :
    (∀ doc page url,
      ((extract_products doc page url).map productKey).Nodup) ∧
    (∀ doc url, ((extract_reviews doc url).map reviewKey).Nodup) ∧
    (∀ doc url,
      ((extract_testimonials doc url).map testimonialKey).Nodup) ∧
    extract_reviews [revCardTailA, revCardTailB] reviewsUrl =
      [{ date := "2023-05-18", text := longTailA, source_url := reviewsUrl }] ∧
    longTailA ≠ longTailB := by
  refine ⟨?_, ?_, ?_, by decide, by decide⟩
  · intro doc page url
    exact (dedupByAux_keys_nodup productKey [] _).1
  · intro doc url
    exact (dedupByAux_keys_nodup reviewKey [] _).1
  · intro doc url
    exact (dedupByAux_keys_nodup testimonialKey [] _).1

/-- C2: appending additional sibling card containers at the end of the
document only grows the extracted record set: every record extracted from
document `A` has a record with the same dedup key among those extracted
from `A ++ ext`, for each of the three extractors. -/
theorem claim_C2 :
    (∀ A ext page url, ∀ r ∈ extract_products A page url,
      ∃ r' ∈ extract_products (A ++ ext) page url,
        productKey r' = productKey r) ∧
    (∀ A ext url, ∀ r ∈ extract_reviews A url,
      ∃ r' ∈ extract_reviews (A ++ ext) url, reviewKey r' = reviewKey r) ∧
    (∀ A ext url, ∀ r ∈ extract_testimonials A url,
      ∃ r' ∈ extract_testimonials (A ++ ext) url,
        testimonialKey r' = testimonialKey r) := by
  refine ⟨?_, ?_, ?_⟩
  · intro A ext page url r hr
    have hitems : r ∈ ((allElemsList A).filter productCardSel).filterMap
        (productOfCard page url) :=
      mem_of_mem_dedupByAux productKey [] _ hr
    apply mem_dedupBy_of_key productKey
    rw [allElemsList_append, List.filter_append, List.filterMap_append]
    exact List.mem_append_left _ hitems
  · intro A ext url r hr
    have hitems : r ∈ ((allElemsList A).filter reviewCardSel).filterMap
        (reviewOfCard url) :=
      mem_of_mem_dedupByAux reviewKey [] _ hr
    apply mem_dedupBy_of_key reviewKey
    rw [allElemsList_append, List.filter_append, List.filterMap_append]
    exact List.mem_append_left _ hitems
  · intro A ext url r hr
    have hitems : r ∈ ((allElemsList A).filter testimonialBlockSel).filterMap
        (testimonialOfBlock url) :=
      mem_of_mem_dedupByAux testimonialKey [] _ hr
    apply mem_dedupBy_of_key testimonialKey
    rw [allElemsList_append, List.filter_append, List.filterMap_append]
    exact List.mem_append_left _ hitems

/-- Witness for C2 at a concrete document: the record extracted from a
one-card review document keeps its key when a second card is appended. -/
theorem claim_C2_witness :
    ∃ r' ∈ extract_reviews ([revCardTailA] ++ [revCardTailB]) reviewsUrl,
      reviewKey r' = reviewKey
        { date := "2023-05-18", text := longTailA, source_url := reviewsUrl } :=
  claim_C2.2.1 [revCardTailA] [revCardTailB] reviewsUrl
    { date := "2023-05-18", text := longTailA, source_url := reviewsUrl }
    (by decide)

/-- If pages `st, …, st + j - 1` extract non-empty record lists and page
`st + j` extracts none, the page loop (with enough fuel) returns the
concatenation of the non-empty pages' records and performs `j + 1`
navigations. -/
theorem scrape_productsAux_spec (listing : Nat → List Node) :
    ∀ j st fuel, j < fuel →
    (∀ p, st ≤ p → p < st + j →
      extract_products (listing p) p (productsUrl p) ≠ []) →
    extract_products (listing (st + j)) (st + j) (productsUrl (st + j)) = [] →
    scrape_productsAux listing fuel st =
      (((List.range j).map (fun i =>
          extract_products (listing (st + i)) (st + i)
            (productsUrl (st + i)))).flatten,
        j + 1) := by
  intro j
  induction j with
  | zero =>
    intro st fuel hlt hne hempty
    obtain ⟨f, rfl⟩ : ∃ f, fuel = f + 1 := ⟨fuel - 1, by omega⟩
    rw [Nat.add_zero] at hempty
    simp [scrape_productsAux, hempty]
  | succ k ih =>
    intro st fuel hlt hne hempty
    obtain ⟨f, rfl⟩ : ∃ f, fuel = f + 1 := ⟨fuel - 1, by omega⟩
    have hne0 : extract_products (listing st) st (productsUrl st) ≠ [] :=
      hne st (le_refl st) (by omega)
    have hempty' : extract_products (listing (st + 1 + k)) (st + 1 + k)
        (productsUrl (st + 1 + k)) = [] := by
      have harith : st + 1 + k = st + (k + 1) := by omega
      rw [harith]
      exact hempty
    have hr := ih (st + 1) f (by omega)
      (fun p h1 h2 => hne p (by omega) (by omega)) hempty'
    simp only [scrape_productsAux]
    rw [if_neg (fun h => hne0 (List.isEmpty_iff.mp h))]
    simp only [hr]
    refine congrArg₂ Prod.mk ?_ rfl
    rw [List.range_succ_eq_map, List.map_cons, List.flatten_cons, Nat.add_zero,
      List.map_map]
    congr 1
    congr 1
    apply List.map_congr_left
    intro i _
    simp only [Function.comp_apply]
    rw [show st + 1 + i = st + (i + 1) from by omega]

/-- C3: the numbered-page strategy visits pages 1, 2, 3, … in order; at the
first page whose extraction yields zero records it stops without including
that page, returning the concatenation of the earlier pages' records after
`k + 1` navigations (for `k` non-empty pages), not `max_pages` navigations. -/
theorem claim_C3 (listing : Nat → List Node) (max_pages k : Nat)
    (hk : k < max_pages)
    (hne : ∀ p, 1 ≤ p → p ≤ k →
      extract_products (listing p) p (productsUrl p) ≠ [])
    (hempty : ∀ p, k < p →
      extract_products (listing p) p (productsUrl p) = []) :
    scrape_products listing max_pages =
      (((List.range k).map (fun i =>
          extract_products (listing (1 + i)) (1 + i)
            (productsUrl (1 + i)))).flatten,
        k + 1) :=
  scrape_productsAux_spec listing k 1 max_pages hk
    (fun p h1 h2 => hne p h1 (by omega))
    (hempty (1 + k) (by omega))

/-- A fake listing whose pages 1–5 each render one product card and whose
pages 6, 7, … render nothing. -/
def fakeListing (p : Nat) : List Node :=
  if p ≤ 5 then
    [.elem "div" "card" [.elem "h3" "" [.text ("P" ++ toString p)]]]
  else []

/-- Witness for C3: against `fakeListing` (every page ≥ 6 empty) the
strategy returns the five pages' records and performs exactly 6
navigations, not `max_pages = 50`. -/
theorem claim_C3_witness :
    scrape_products fakeListing 50 =
      ([{ name := "P1", description := "", price := none, page := 1,
          source_url := productsUrl 1 },
        { name := "P2", description := "", price := none, page := 2,
          source_url := productsUrl 2 },
        { name := "P3", description := "", price := none, page := 3,
          source_url := productsUrl 3 },
        { name := "P4", description := "", price := none, page := 4,
          source_url := productsUrl 4 },
        { name := "P5", description := "", price := none, page := 5,
          source_url := productsUrl 5 }], 6) ∧ (6 : Nat) ≠ 50 := by
  have h := claim_C3 fakeListing 50 5 (by norm_num)
    (fun p h1 h2 => by interval_cases p <;> decide)
    (fun p hp => by
      have hnil : fakeListing p = [] := by
        unfold fakeListing
        rw [if_neg (by omega)]
      rw [hnil]
      rfl)
  rw [h]
  exact ⟨by decide, by decide⟩

/-- A fake review listing: after `s` clicks the page shows `s + 1` review
cards. -/
def fakeRevCard (k : Nat) : Node :=
  .elem "div" "review"
    [.elem "span" "" [.text ("2023-01-0" ++ toString (k + 1))],
     .elem "p" "" [.text ("review number " ++ toString k ++ " body")]]

def fakeDom (s : Nat) : List Node := (List.range (s + 1)).map fakeRevCard

/-- A fake "Load More" control (spelled with stray case and spaces, which
the trimmed case-insensitive match tolerates) that is present before each
of the first 3 clicks and then stops appearing. -/
def fakeLabels (s : Nat) : List String :=
  if s < 3 then ["  load MORE "] else []

def emptyDom : Nat → List Node := fun _ => []

def constLoadMoreLabels : Nat → List String := fun _ => ["Load More"]

/-- C4: the click-to-reveal strategy stops as soon as no clickable control
labeled "Load More" (case-insensitive, trimmed, exact match) is found, and
stops as soon as a round's extracted count does not exceed the previous
round's; against the fake control that feeds 3 count-increasing clicks and
then disappears it performs exactly 3 clicks and returns the final
extraction, which covers every round's records by dedup key. -/
theorem claim_C4 :
    (∀ dom labels fuel s prev,
      find_clickable_by_text (labels s) "Load More" = none →
      scrape_reviewsAux dom labels fuel s prev = (s, 0)) ∧
    (∀ dom labels fuel s prev b,
      find_clickable_by_text (labels s) "Load More" = some b →
      (extract_reviews (dom (s + 1)) reviewsUrl).length ≤ prev →
      scrape_reviewsAux dom labels (fuel + 1) s prev = (s + 1, 1)) ∧
    scrape_reviews fakeDom fakeLabels 250 =
      ([{ date := "2023-01-01", text := "review number 0 body",
          source_url := reviewsUrl },
        { date := "2023-01-02", text := "review number 1 body",
          source_url := reviewsUrl },
        { date := "2023-01-03", text := "review number 2 body",
          source_url := reviewsUrl },
        { date := "2023-01-04", text := "review number 3 body",
          source_url := reviewsUrl }], 3) ∧
    ([0, 1, 2, 3].all (fun s =>
      (extract_reviews (fakeDom s) reviewsUrl).all (fun r =>
        (scrape_reviews fakeDom fakeLabels 250).1.any (fun r' =>
          reviewKey r' == reviewKey r)))) = true := by
  refine ⟨?_, ?_, by decide, by decide⟩
  · intro dom labels fuel s prev hnone
    cases fuel with
    | zero => rfl
    | succ f => simp [scrape_reviewsAux, hnone]
  · intro dom labels fuel s prev b hsome hle
    simp [scrape_reviewsAux, hsome, hle]

/-- Witness for C4: the no-control stop at a state with no "Load More"
label, and the no-progress stop when a click does not increase the count. -/
theorem claim_C4_witness :
    scrape_reviewsAux fakeDom fakeLabels 10 3 7 = (3, 0) ∧
    scrape_reviewsAux emptyDom constLoadMoreLabels (5 + 1) 0 0 = (1, 1) :=
  ⟨claim_C4.1 fakeDom fakeLabels 10 3 7 (by decide),
   claim_C4.2.1 emptyDom constLoadMoreLabels 5 0 0 "Load More" (by decide)
     (by decide)⟩

/-- The height sequence of the scroll scenario: measurement 0 is the
pre-loop read, the loop then reads 200, 200, 200, 300, 300, 300, 300, …. -/
def fakeHeights (i : Nat) : Nat :=
  [100, 200, 200, 200, 300, 300, 300, 300].getD i 300

def constHeights : Nat → Nat := fun _ => 100

/-- One unfolding step of the scroll loop. -/
theorem scrollRoundsAux_step (heights : Nat → Nat) (fuel i last stable : Nat) :
    scrollRoundsAux heights (fuel + 1) i last stable =
      if heights i = last then
        (if stable + 1 ≥ 3 then 1
         else 1 + scrollRoundsAux heights fuel (i + 1) last (stable + 1))
      else 1 + scrollRoundsAux heights fuel (i + 1) (heights i) 0 := by
  rw [scrollRoundsAux]

/-- Every invocation of the scroll loop with at least one round of fuel
performs at least one round. -/
theorem scrollRoundsAux_pos (heights : Nat → Nat) (fuel i last stable : Nat) :
    1 ≤ scrollRoundsAux heights (fuel + 1) i last stable := by
  rw [scrollRoundsAux_step]
  split
  · split
    · omega
    · omega
  · omega

/-- Counterexample for C5: on the measured height sequence
`[100, 200, 200, 200, 300, 300, 300, 300]` the strategy does NOT stop at
the first `200, 200, 200` run (which would end it within 3 rounds): the
first 200 reading differs from 100 and resets the counter, so that run
yields only 2 unchanged rounds and the loop runs 7 rounds, stopping inside
the 300 plateau. -/
theorem claim_C5_counterexample :
    scrollRounds fakeHeights 200 = 7 ∧ ¬ scrollRounds fakeHeights 200 ≤ 4 := by
  refine ⟨by decide, ?_⟩
  rw [show scrollRounds fakeHeights 200 = 7 from by decide]
  omega

/-- C5 (amended): the scroll strategy stops at the first occurrence of 3
consecutive unchanged height readings — four equal consecutive
measurements; a single unchanged reading never stops it; on the sequence
`[100, 200, 200, 200, 300, 300, 300, 300]` the 200 plateau provides only 2
unchanged rounds, so the loop continues and stops after 7 rounds, within
the 300 plateau. -/
theorem claim_C5 :
    (∀ heights fuel i last,
      2 ≤ scrollRoundsAux heights (fuel + 2) i last 0) ∧
    (∀ heights fuel i last, heights i = last → heights (i + 1) = last →
      heights (i + 2) = last →
      scrollRoundsAux heights (fuel + 3) i last 0 = 3) ∧
    scrollRounds fakeHeights 200 = 7 := by
  refine ⟨?_, ?_, by decide⟩
  · intro heights fuel i last
    rw [show fuel + 2 = (fuel + 1) + 1 from rfl, scrollRoundsAux_step]
    split
    · rw [if_neg (by omega)]
      have := scrollRoundsAux_pos heights fuel (i + 1) last (0 + 1)
      omega
    · have := scrollRoundsAux_pos heights fuel (i + 1) (heights i) 0
      omega
  · intro heights fuel i last h0 h1 h2
    rw [show fuel + 3 = (fuel + 2) + 1 from rfl, scrollRoundsAux_step,
      if_pos h0, if_neg (show ¬ 0 + 1 ≥ 3 by omega),
      show fuel + 2 = (fuel + 1) + 1 from rfl, scrollRoundsAux_step,
      if_pos h1, if_neg (show ¬ 0 + 1 + 1 ≥ 3 by omega),
      scrollRoundsAux_step, if_pos h2,
      if_pos (show 0 + 1 + 1 + 1 ≥ 3 by omega)]

/-- Witness for C5: a two-round lower bound on the fake sequence, and the
3-unchanged-rounds stop on a constant height sequence. -/
theorem claim_C5_witness :
    2 ≤ scrollRoundsAux fakeHeights (0 + 2) 1 100 0 ∧
    scrollRoundsAux constHeights (0 + 3) 1 100 0 = 3 :=
  ⟨claim_C5.1 fakeHeights 0 1 100,
   claim_C5.2.1 constHeights 0 1 100 rfl rfl rfl⟩

/-! ## C6: the date parser -/

/-- The character just before position `i` of `cs` (`prev` when `i = 0`). -/
def prevAt (prev : Option Char) (cs : List Char) (i : Nat) : Option Char :=
  if i = 0 then prev else some (cs.getD (i - 1) ' ')

/-- `DATE_RE` has a match somewhere in `cs`: stated positionally,
independently of the scanner's recursion. -/
def hasIsoPattern (cs : List Char) : Bool :=
  (List.range cs.length).any
    (fun i => (isoHere (prevAt none cs i) (cs.drop i)).isSome)

theorem prevAt_cons (prev : Option Char) (c : Char) (rest : List Char)
    (j : Nat) :
    prevAt (some c) rest j = prevAt prev (c :: rest) (j + 1) := by
  cases j with
  | zero => simp [prevAt]
  | succ k => simp [prevAt]

/-- Completeness of the scanner: if `DATE_RE` matches at some position, the
left-to-right scan finds a match. -/
theorem findIsoAux_isSome_of (cs : List Char) :
    ∀ (prev : Option Char) (i : Nat), i < cs.length →
    (isoHere (prevAt prev cs i) (cs.drop i)).isSome = true →
    (findIsoAux prev cs).isSome = true := by
  induction cs with
  | nil =>
    intro prev i hi
    simp at hi
  | cons c rest ih =>
    intro prev i hi hsome
    cases hmatch : isoHere prev (c :: rest) with
    | some m => simp [findIsoAux, hmatch]
    | none =>
      cases i with
      | zero =>
        rw [show prevAt prev (c :: rest) 0 = prev from rfl,
          List.drop_zero, hmatch] at hsome
        cases hsome
      | succ j =>
        have hstep : findIsoAux prev (c :: rest) = findIsoAux (some c) rest := by
          simp [findIsoAux, hmatch]
        rw [hstep]
        apply ih (some c) j
        · simpa using hi
        · rw [prevAt_cons prev c rest j]
          simpa using hsome

theorem findIso_isSome_of_hasIsoPattern {cs : List Char}
    (h : hasIsoPattern cs = true) : (findIso cs).isSome = true := by
  unfold hasIsoPattern at h
  rw [List.any_eq_true] at h
  obtain ⟨i, hmem, hsome⟩ := h
  exact findIsoAux_isSome_of cs none i (List.mem_range.mp hmem) hsome

/-- Counterexample for C6: `"1999-05-18"` embeds an ISO `YYYY-MM-DD`
substring, yet the parser returns nothing — `DATE_RE` only accepts years
2000–2099 and the month-name formats do not apply. -/
theorem claim_C6_counterexample :
    parse_date_to_iso "1999-05-18" = none ∧
    parse_date_to_iso "1999-05-18" ≠ some "1999-05-18" := by
  refine ⟨by decide, ?_⟩
  rw [show parse_date_to_iso "1999-05-18" = none from by decide]
  exact Option.noConfusion

/-- C6 (amended): `_parse_date_to_iso` returns an embedded date whenever a
word-boundary-delimited `20YY-MM-DD` digit pattern (year 2000–2099) occurs
anywhere in the cleaned string; otherwise, after deleting the substrings
"Reviewed on" and "on", it parses the remainder against the month-name
formats "Mon DD YYYY" and "Month DD YYYY", and returns nothing (not an
error) when no date can be derived. `"2023-05-18"` maps to `2023-05-18`,
`"Reviewed on Apr 25 2023"` to `2023-04-25`, `"not a date"` to nothing. -/
theorem claim_C6 :
    (∀ s : String, hasIsoPattern (cleanList s.toList) = true →
      (parse_date_to_iso s).isSome = true) ∧
    parse_date_to_iso "2023-05-18" = some "2023-05-18" ∧
    parse_date_to_iso "Reviewed on Apr 25 2023" = some "2023-04-25" ∧
    parse_date_to_iso "not a date" = none := by
  refine ⟨?_, by decide, by decide, by decide⟩
  intro s h
  have hfind := findIso_isSome_of_hasIsoPattern h
  obtain ⟨m, hm⟩ := Option.isSome_iff_exists.mp hfind
  have hm' : findIso (cleanList s.data) = some m := hm
  simp [parse_date_to_iso, hm']

/-- Witness for C6 at `"2023-05-18"`: the pattern is present and the
parser succeeds. -/
theorem claim_C6_witness :
    hasIsoPattern (cleanList ("2023-05-18" : String).toList) = true ∧
    (parse_date_to_iso "2023-05-18").isSome = true :=
  ⟨by decide, claim_C6.1 "2023-05-18" (by decide)⟩

/-! ## C7: review dates -/

/-- A review card whose only date-like content, `2023-13-45`, matches
`DATE_RE` but is no real calendar date. -/
def revCardBadDate : Node :=
  .elem "li" "" [.text "ok 2023-13-45 terrible product really"]

/-- `20YY-MM-DD` digit shape, the exact shape `DATE_RE` matches. -/
def isoShapedList : List Char → Bool
  | ['2', '0', a, b, '-', c, d, '-', e, f] =>
    isDigitChar a && isDigitChar b && isDigitChar c && isDigitChar d &&
      isDigitChar e && isDigitChar f
  | _ => false

def isoShapedDate (s : String) : Bool := isoShapedList s.toList

/-- Follows the spec's words, for comparison with what the code emits: a
string of the form `YYYY-MM-DD` denoting a real, resolvable calendar date
(month 1–12, day within the month's length for that year). -/
def specRealCalendarDate (s : String) : Bool :=
  match s.toList with
  | [y1, y2, y3, y4, '-', m1, m2, '-', d1, d2] =>
    isDigitChar y1 && isDigitChar y2 && isDigitChar y3 && isDigitChar y4 &&
    isDigitChar m1 && isDigitChar m2 && isDigitChar d1 && isDigitChar d2 &&
    (let y := ((y1.toNat - 48) * 10 + (y2.toNat - 48)) * 100 +
        (y3.toNat - 48) * 10 + (y4.toNat - 48)
     let m := (m1.toNat - 48) * 10 + (m2.toNat - 48)
     let d := (d1.toNat - 48) * 10 + (d2.toNat - 48)
     1 ≤ m && m ≤ 12 && 1 ≤ d && d ≤ daysInMonth y m)
  | _ => false

theorem isoHere_shaped {prev : Option Char} {cs m rest : List Char} :
    isoHere prev cs = some (m, rest) → isoShapedList m = true := by
  unfold isoHere
  split
  · split
    · rename_i hcond
      intro h
      simp only [Option.some.injEq, Prod.mk.injEq] at h
      obtain ⟨h1, -⟩ := h
      subst h1
      simp only [Bool.and_eq_true] at hcond
      simp only [isoShapedList, Bool.and_eq_true]
      tauto
    · intro h
      cases h
  · intro h
    cases h

theorem findIsoAux_shaped {cs : List Char} :
    ∀ {prev : Option Char} {m rest : List Char},
    findIsoAux prev cs = some (m, rest) → isoShapedList m = true := by
  induction cs with
  | nil =>
    intro prev m rest h
    cases h
  | cons c rest2 ih =>
    intro prev m rest h
    rw [findIsoAux] at h
    rcases hfirst : isoHere prev (c :: rest2) with - | p
    · rw [hfirst] at h
      exact ih h
    · rw [hfirst] at h
      obtain ⟨rfl⟩ : p = (m, rest) := by
        cases h
        rfl
      exact isoHere_shaped hfirst

theorem findIso_shaped {cs m rest : List Char} :
    findIso cs = some (m, rest) → isoShapedList m = true :=
  findIsoAux_shaped

/-- Counterexample for C7: a review container whose text carries the digit
pattern `2023-13-45` — no real calendar date — is emitted, not discarded:
`extract_reviews` only pattern-matches the date, it never validates it. -/
theorem claim_C7_counterexample :
    extract_reviews [revCardBadDate] reviewsUrl =
      [{ date := "2023-13-45", text := "ok terrible product really",
         source_url := reviewsUrl }] ∧
    specRealCalendarDate "2023-13-45" = false := by
  constructor
  · decide
  · decide

/-- C7 (amended): every review record's date matches the `20YY-MM-DD`
digit shape of `DATE_RE` (a candidate with no such pattern is discarded
without error), but the month and day digits are not validated against the
calendar, so the date need not be a real calendar date. -/
theorem claim_C7 (doc : List Node) (url : String) :
    ∀ r ∈ extract_reviews doc url, isoShapedDate r.date = true := by
  intro r hr
  have hitems : r ∈ ((allElemsList doc).filter reviewCardSel).filterMap
      (reviewOfCard url) :=
    mem_of_mem_dedupByAux reviewKey [] _ hr
  obtain ⟨c, -, hcard⟩ := List.mem_filterMap.mp hitems
  simp only [reviewOfCard] at hcard
  split at hcard
  · cases hcard
  · rename_i m rest2 heq
    split at hcard <;> (try split at hcard) <;>
      first
      | (have hr2 := Option.some.inj hcard
         subst hr2
         exact findIso_shaped heq)
      | cases hcard

/-- Witness for C7: the emitted bad-date record's date still has the
pattern shape. -/
theorem claim_C7_witness :
    isoShapedDate (ReviewRec.date
      { date := "2023-13-45", text := "ok terrible product really",
        source_url := reviewsUrl }) = true :=
  claim_C7 [revCardBadDate] reviewsUrl
    { date := "2023-13-45", text := "ok terrible product really",
      source_url := reviewsUrl } (by decide)

/-! ## C8: review text selection -/

/-- A review card with two qualifying paragraphs, the second one longer. -/
def revCardTwoParas : Node :=
  .elem "div" "review"
    [.elem "span" "" [.text "2023-05-18"],
     .elem "p" "" [.text "short p"],
     .elem "p" "" [.text "a much longer review paragraph"]]

/-- Counterexample for C8: with qualifying paragraphs "short p" (first in
document order) and "a much longer review paragraph", the extractor emits
the longer second paragraph, not the first. -/
theorem claim_C8_counterexample :
    extract_reviews [revCardTwoParas] reviewsUrl =
      [{ date := "2023-05-18", text := "a much longer review paragraph",
         source_url := reviewsUrl }] ∧
    ("a much longer review paragraph" : String) ≠ "short p" :=
  ⟨by decide, by decide⟩

/-- The fold of `bestReviewText`, generalized over the accumulator: the
result is the accumulator or a qualifying element, it bounds the length of
every qualifying element, and it never shrinks the accumulator. -/
theorem bestReviewFold_spec (ts : List String) : ∀ b : String,
    (ts.foldl (fun best t =>
        if qualifiesReviewPara t && t.length > best.length then t else best)
        b = b ∨
      (ts.foldl (fun best t =>
          if qualifiesReviewPara t && t.length > best.length then t else best)
          b ∈ ts ∧
        qualifiesReviewPara (ts.foldl (fun best t =>
          if qualifiesReviewPara t && t.length > best.length then t else best)
          b) = true)) ∧
    (∀ t ∈ ts, qualifiesReviewPara t = true →
      t.length ≤ (ts.foldl (fun best t =>
        if qualifiesReviewPara t && t.length > best.length then t else best)
        b).length) ∧
    b.length ≤ (ts.foldl (fun best t =>
      if qualifiesReviewPara t && t.length > best.length then t else best)
      b).length := by
  induction ts with
  | nil =>
    intro b
    exact ⟨Or.inl rfl, by simp, le_refl _⟩
  | cons t rest ih =>
    intro b
    simp only [List.foldl_cons]
    by_cases hc : (qualifiesReviewPara t && t.length > b.length) = true
    · rw [if_pos hc]
      obtain ⟨ih1, ih2, ih3⟩ := ih t
      simp only [Bool.and_eq_true, decide_eq_true_eq] at hc
      refine ⟨?_, ?_, ?_⟩
      · rcases ih1 with he | ⟨hmem, hq⟩
        · exact Or.inr ⟨by rw [he]; exact List.mem_cons_self _ _,
            by rw [he]; exact hc.1⟩
        · exact Or.inr ⟨List.mem_cons_of_mem _ hmem, hq⟩
      · intro u hu hqu
        rcases List.mem_cons.mp hu with rfl | hur
        · exact ih3
        · exact ih2 u hur hqu
      · omega
    · rw [if_neg hc]
      obtain ⟨ih1, ih2, ih3⟩ := ih b
      refine ⟨?_, ?_, ih3⟩
      · rcases ih1 with he | ⟨hmem, hq⟩
        · exact Or.inl he
        · exact Or.inr ⟨List.mem_cons_of_mem _ hmem, hq⟩
      · intro u hu hqu
        rcases List.mem_cons.mp hu with rfl | hur
        · have : ¬ (u.length > b.length) := by
            intro hgt
            exact hc (by simp [hqu, hgt])
          omega
        · exact ih2 u hur hqu

theorem string_length_pos_of_ne_empty {t : String} (h : t ≠ "") :
    1 ≤ t.length := by
  rcases Nat.eq_zero_or_pos t.length with h0 | h1
  · exfalso
    apply h
    cases t with
    | mk data =>
      simp only [String.length, List.length_eq_zero] at h0
      rw [h0]
  · exact h1

/-- C8 (amended): among the paragraph texts of a review container, the
extractor selects the LONGEST non-empty paragraph whose text does not
contain the date pattern (the earliest among equals, since only strictly
longer candidates replace the current best); only when no paragraph
qualifies does it fall back to the container text with the date removed.
On the two-paragraph card it emits the longer paragraph. -/
theorem claim_C8 :
    (∀ ts t, t ∈ ts → qualifiesReviewPara t = true → bestReviewText ts ≠ "") ∧
    (∀ ts, bestReviewText ts ≠ "" →
      bestReviewText ts ∈ ts ∧
      qualifiesReviewPara (bestReviewText ts) = true ∧
      ∀ t ∈ ts, qualifiesReviewPara t = true →
        t.length ≤ (bestReviewText ts).length) ∧
    extract_reviews [revCardTwoParas] reviewsUrl =
      [{ date := "2023-05-18", text := "a much longer review paragraph",
         source_url := reviewsUrl }] := by
  refine ⟨?_, ?_, by decide⟩
  · intro ts t hmem hq
    obtain ⟨-, h2, -⟩ := bestReviewFold_spec ts ""
    have hlen : t.length ≤ (bestReviewText ts).length := h2 t hmem hq
    have hpos : 1 ≤ t.length := by
      apply string_length_pos_of_ne_empty
      simp only [qualifiesReviewPara, Bool.and_eq_true, decide_eq_true_eq] at hq
      exact hq.1
    intro hbad
    rw [hbad] at hlen
    have h0 : ("" : String).length = 0 := rfl
    omega
  · intro ts hne
    obtain ⟨h1, h2, -⟩ := bestReviewFold_spec ts ""
    rcases h1 with he | ⟨hmem, hq⟩
    · exact absurd he hne
    · exact ⟨hmem, hq, h2⟩

/-- Witness for C8: on the concrete paragraph list
`["short p", "a much longer review paragraph"]` the best text is non-empty,
belongs to the list, qualifies, and bounds both lengths. -/
theorem claim_C8_witness :
    (bestReviewText ["short p", "a much longer review paragraph"] ≠ "") ∧
    (bestReviewText ["short p", "a much longer review paragraph"] ∈
        ["short p", "a much longer review paragraph"] ∧
      qualifiesReviewPara
        (bestReviewText ["short p", "a much longer review paragraph"]) = true ∧
      ∀ t ∈ ["short p", "a much longer review paragraph"],
        qualifiesReviewPara t = true →
        t.length ≤ (bestReviewText
          ["short p", "a much longer review paragraph"]).length) :=
  ⟨claim_C8.1 ["short p", "a much longer review paragraph"] "short p"
      (by decide) (by decide),
   claim_C8.2.1 ["short p", "a much longer review paragraph"] (by decide)⟩

/-! ## C9: product price recovery -/

/-- A product card with no price-classed element whose free text contains a
currency amount. -/
def prodCardNoPriceEl : Node :=
  .elem "div" "card"
    [.elem "h3" "" [.text "Widget"],
     .elem "p" "" [.text "Now only $19.99 today!"]]

/-- Counterexample for C9: on a card with no price-classed element whose
text contains `"Now only $19.99 today!"`, `extract_products` emits price
`None` — it has no currency-regex fallback over the container text. -/
theorem claim_C9_counterexample :
    extract_products [prodCardNoPriceEl] 1 (productsUrl 1) =
      [{ name := "Widget", description := "Now only $19.99 today!",
         price := none, page := 1, source_url := productsUrl 1 }] ∧
    (none : Option String) ≠ some "$19.99" :=
  ⟨by decide, by decide⟩

/-- C9 (amended): the price comes only from an element whose class hints at
"price"; when a document's product cards have no such element, every
emitted record's price is `None` — in particular the `$19.99` free-text
card yields price `None`, not `"$19.99"`. -/
theorem claim_C9 :
    (∀ doc page url,
      (∀ c ∈ (allElemsList doc).filter productCardSel,
        (selectOne priceSel c).isNone = true) →
      ∀ r ∈ extract_products doc page url, r.price = none) ∧
    extract_products [prodCardNoPriceEl] 1 (productsUrl 1) =
      [{ name := "Widget", description := "Now only $19.99 today!",
         price := none, page := 1, source_url := productsUrl 1 }] := by
  refine ⟨?_, by decide⟩
  intro doc page url hnoprice r hr
  have hitems : r ∈ ((allElemsList doc).filter productCardSel).filterMap
      (productOfCard page url) :=
    mem_of_mem_dedupByAux productKey [] _ hr
  obtain ⟨c, hcmem, hcard⟩ := List.mem_filterMap.mp hitems
  have hsel : selectOne priceSel c = none :=
    Option.isNone_iff_eq_none.mp (hnoprice c hcmem)
  simp only [productOfCard] at hcard
  split at hcard
  · cases hcard
  · have hr2 := Option.some.inj hcard
    subst hr2
    simp [hsel, safeTextOpt]

/-- Witness for C9: the one-card document with no price-classed element
yields a record with price `None`. -/
theorem claim_C9_witness :
    ProductRec.price
      { name := "Widget", description := "Now only $19.99 today!",
        price := none, page := 1, source_url := productsUrl 1 } = none :=
  claim_C9.1 [prodCardNoPriceEl] 1 (productsUrl 1) (by decide)
    { name := "Widget", description := "Now only $19.99 today!",
      price := none, page := 1, source_url := productsUrl 1 } (by decide)

/-! ## C10: testimonial text recovery -/

/-- A testimonial container that is not a blockquote and has no paragraph
child, only direct text of length ≥ 10. -/
def testNoParaBlock : Node :=
  .elem "div" "testimonial" [.text "This is a wonderful product indeed"]

def bqBlock : Node :=
  .elem "blockquote" "" [.text "Great stuff, loved it"]

/-- Counterexample for C10: the non-blockquote container with qualifying
full text but no paragraph child yields NO record — there is no
full-container-text fallback. -/
theorem claim_C10_counterexample :
    extract_testimonials [testNoParaBlock] "u" = [] ∧
    10 ≤ (safeText testNoParaBlock).length :=
  ⟨by decide, by decide⟩

/-- C10 (amended): the testimonial text is the blockquote content when the
container itself is a blockquote, else the first paragraph child's text;
there is no full-container-text fallback, so a non-blockquote container
without a paragraph descendant recovers the empty text and is always
rejected by the 10-character minimum, which every emitted record meets. -/
theorem claim_C10 :
    (∀ b : Node, b.tagOf ≠ "blockquote" → (selectOne isP b).isNone = true →
      testimonialText b = "") ∧
    (∀ b : Node, b.tagOf = "blockquote" → testimonialText b = safeText b) ∧
    (∀ doc url, ∀ r ∈ extract_testimonials doc url, 10 ≤ r.text.length) ∧
    extract_testimonials [testNoParaBlock] "u" = [] := by
  refine ⟨?_, ?_, ?_, by decide⟩
  · intro b htag hsel
    have hsel2 : selectOne isP b = none := Option.isNone_iff_eq_none.mp hsel
    simp [testimonialText, htag, hsel2, safeTextOpt]
  · intro b htag
    simp [testimonialText, htag]
  · intro doc url r hr
    have hitems : r ∈ ((allElemsList doc).filter testimonialBlockSel).filterMap
        (testimonialOfBlock url) :=
      mem_of_mem_dedupByAux testimonialKey [] _ hr
    obtain ⟨b, -, hblock⟩ := List.mem_filterMap.mp hitems
    simp only [testimonialOfBlock] at hblock
    split at hblock
    · cases hblock
    · rename_i hlen
      have hr2 := Option.some.inj hblock
      subst hr2
      show 10 ≤ (testimonialText b).length
      omega

/-- Witness for C10: the counterexample container recovers empty text, a
blockquote recovers its own content, and the record extracted from the
blockquote meets the 10-character minimum. -/
theorem claim_C10_witness :
    testimonialText testNoParaBlock = "" ∧
    testimonialText bqBlock = safeText bqBlock ∧
    10 ≤ (TestimonialRec.text
      { author := none, text := "Great stuff, loved it",
        source_url := "u" }).length :=
  ⟨claim_C10.1 testNoParaBlock (by decide) (by decide),
   claim_C10.2.1 bqBlock rfl,
   claim_C10.2.2.1 [bqBlock] "u"
     { author := none, text := "Great stuff, loved it", source_url := "u" }
     (by decide)⟩

end Scraper
